import Mathlib

/-!
Shallow embedding of `src/utilities/verification.ts` (Discord webhook
Ed25519 signature verification, lifted from discord-interactions-js).

Byte sequences (`Uint8Array`, `ArrayBuffer`, `Buffer`) are modelled as
`List Nat` of byte values; JavaScript exceptions are modelled with
`Except String`; the external WebCrypto provider (`webcrypto.subtle`)
is an abstract structure of two fallible operations.
-/

/-- JavaScript line terminators (U+000A, U+000D, U+2028, U+2029); the regex
dot `.` matches every character except these. -/
def isLineTerm (c : Char) : Bool :=
  c.toNat == 0x0A || c.toNat == 0x0D || c.toNat == 0x2028 || c.toNat == 0x2029

/-- Model of `value.match(/.{1,2}/g)`: scanning left to right, each match is
one or two consecutive non-line-terminator characters (greedy, two when
possible); characters at which no match can start are skipped. The JavaScript
call returns `null` exactly when this list is empty. -/
def hexChunks : List Char → List (List Char)
  | [] => []
  | [c] => if isLineTerm c then [] else [[c]]
  | c :: d :: rest =>
    if isLineTerm c then hexChunks (d :: rest)
    else if isLineTerm d then [c] :: hexChunks rest
    else [c, d] :: hexChunks rest

/-- JavaScript StrWhiteSpace characters (WhiteSpace plus LineTerminator),
trimmed by `Number.parseInt` before parsing. -/
def isJsWhitespace (c : Char) : Bool :=
  c.toNat == 0x09 || c.toNat == 0x0B || c.toNat == 0x0C || c.toNat == 0x20 ||
  c.toNat == 0xA0 || c.toNat == 0xFEFF || c.toNat == 0x1680 ||
  (decide (0x2000 ≤ c.toNat) && decide (c.toNat ≤ 0x200A)) ||
  c.toNat == 0x202F || c.toNat == 0x205F || c.toNat == 0x3000 || isLineTerm c

/-- Value of a base-16 digit character (0-9, a-f, A-F). -/
def hexDigitVal (c : Char) : Option Nat :=
  if '0' ≤ c ∧ c ≤ '9' then some (c.toNat - '0'.toNat)
  else if 'a' ≤ c ∧ c ≤ 'f' then some (c.toNat - 'a'.toNat + 10)
  else if 'A' ≤ c ∧ c ≤ 'F' then some (c.toNat - 'A'.toNat + 10)
  else none

/-- Model of `Number.parseInt(s, 16)`: trim leading whitespace, read an
optional sign, strip an optional `0x`/`0X` prefix, then take the longest
prefix of hexadecimal digits; `none` models the `NaN` result when that
prefix is empty. -/
def parseIntHex (s : List Char) : Option Int :=
  let s1 := s.dropWhile isJsWhitespace
  let signAndRest : Int × List Char :=
    match s1 with
    | '-' :: r => (-1, r)
    | '+' :: r => (1, r)
    | _ => (1, s1)
  let s3 : List Char :=
    match signAndRest.2 with
    | '0' :: 'x' :: r => r
    | '0' :: 'X' :: r => r
    | _ => signAndRest.2
  let digits := s3.takeWhile (fun c => (hexDigitVal c).isSome)
  if digits.isEmpty then none
  else some (signAndRest.1 *
    Int.ofNat (digits.foldl (fun a c => a * 16 + (hexDigitVal c).getD 0) 0))

/-- Model of the `ToUint8` coercion applied by the `Uint8Array` constructor to
each element: `NaN` becomes 0, any other number is reduced modulo 256. -/
def toUint8 : Option Int → Nat
  | none => 0
  | some n => (n % 256).toNat

/-- Byte contributed by one regex chunk: `parseInt(chunk, 16)` coerced by
`ToUint8`. -/
def chunkByte (chunk : List Char) : Nat := toUint8 (parseIntHex chunk)

/-- Message of the error thrown when the hex chunk match returns `null`. -/
def parseErrorMsg : String := "Value is not a valid hex string"

/-- Message of the error thrown for an unrecognized value type. -/
def unrecognizedMsg : String :=
  "Unrecognized value type, must be one of: string, Buffer, ArrayBuffer, Uint8Array"

/-- Hex branch of `valueToUint8Array`: `value.match(/.{1,2}/g)`, throw when the
match is `null`, otherwise map `parseInt(byte, 16)` over the chunks and build a
`Uint8Array` (coercing each number with `ToUint8`). -/
def hexDecode (s : String) : Except String (List Nat) :=
  match hexChunks s.data with
  | [] => .error parseErrorMsg
  | chunks => .ok (chunks.map chunkByte)

/-- Model of `new TextEncoder().encode(s)`: the UTF-8 bytes of `s`
(`String.utf8EncodeChar` is the standard per-character UTF-8 encoding). -/
def utf8Bytes (s : String) : List Nat :=
  (s.data.flatMap String.utf8EncodeChar).map (fun b => b.toNat)

instance {ε α : Type} [DecidableEq ε] [DecidableEq α] :
    DecidableEq (Except ε α) := fun a b =>
  match a, b with
  | .error e, .error f =>
    if h : e = f then .isTrue (by rw [h])
    else .isFalse (fun hc => by cases hc; exact h rfl)
  | .ok x, .ok y =>
    if h : x = y then .isTrue (by rw [h])
    else .isFalse (fun hc => by cases hc; exact h rfl)
  | .error _, .ok _ => .isFalse (fun hc => by cases hc)
  | .ok _, .error _ => .isFalse (fun hc => by cases hc)

/-- Runtime values acceptable (or not) as the `value` argument of
`valueToUint8Array`. `jsNull` covers both `null` and `undefined` (the source
tests `value == null`); `other` stands for every value of any other runtime
type. Byte-sequence values carry their byte contents. -/
inductive JSValue where
  | jsNull
  | str (s : String)
  | buffer (bs : List Nat)
  | arrayBuffer (bs : List Nat)
  | uint8Array (bs : List Nat)
  | other
deriving DecidableEq

/-- Model of `valueToUint8Array(value, format?)`: `null`/`undefined` give an
empty array; strings are hex-decoded when `format === "hex"` and UTF-8 encoded
otherwise; `Buffer`, `ArrayBuffer` and `Uint8Array` inputs yield their bytes
(`new Uint8Array(buffer)` copies, `new Uint8Array(arrayBuffer)` is a view, a
`Uint8Array` is returned as-is — all the same byte contents); anything else
throws the unrecognized-type error. -/
def valueToUint8Array (value : JSValue) (format : Option String) :
    Except String (List Nat) :=
  match value with
  | .jsNull => .ok []
  | .str s => if format = some "hex" then hexDecode s else .ok (utf8Bytes s)
  | .buffer bs => .ok bs
  | .arrayBuffer bs => .ok bs
  | .uint8Array bs => .ok bs
  | .other => .error unrecognizedMsg

/-- Model of `TypedArray.prototype.set(src, off)`: overwrite `dst` from offset
`off` with the elements of `src` (every use below is in bounds). -/
def writeAt (dst src : List Nat) (off : Nat) : List Nat :=
  dst.take off ++ src ++ dst.drop (off + src.length)

/-- Model of `concatUint8Arrays`: allocate a zero array of the combined length,
write `arr1` at offset 0 and `arr2` at offset `arr1.length`. -/
def concatUint8Arrays (arr1 arr2 : List Nat) : List Nat :=
  let merged := List.replicate (arr1.length + arr2.length) 0
  let merged1 := writeAt merged arr1 0
  writeAt merged1 arr2 arr1.length

/-- Abstract cryptographic provider (`webcrypto.subtle`) over an opaque key
handle type `K`. `importKey` takes the import format, raw key bytes, the
algorithm `name`, the algorithm `namedCurve`, the extractable flag and the
usages list; `verify` takes the algorithm name, a key handle, signature bytes
and message bytes. An `.error` result models a rejected promise / thrown
exception. -/
structure CryptoProvider (K : Type) where
  importKey : String → List Nat → String → String → Bool → List String →
    Except String K
  verify : String → K → List Nat → List Nat → Except String Bool

/-- The `clientPublicKey` parameter: either a (hex) string or an
already-constructed `CryptoKey` handle (the source branches on
`typeof clientPublicKey === "string"`). -/
inductive KeyInput (K : Type) where
  | str (s : String)
  | cryptoKey (k : K)

/-- Public-key resolution step of `verifyKey`: a string is hex-decoded with
`valueToUint8Array(·, "hex")` and imported through `subtleCrypto.importKey`
with format `"raw"`, algorithm name and namedCurve both `"ed25519"`,
extractable `false` and usages `["verify"]`; a pre-built handle is used
directly. -/
def resolvePublicKey {K : Type} (p : CryptoProvider K)
    (clientPublicKey : KeyInput K) : Except String K :=
  match clientPublicKey with
  | .str s => do
      let raw ← valueToUint8Array (.str s) (some "hex")
      p.importKey "raw" raw "ed25519" "ed25519" false ["verify"]
  | .cryptoKey k => .ok k

/-- First three steps of `verifyKey`: normalize the timestamp (UTF-8), then the
raw body (UTF-8 / pass-through), then concatenate timestamp bytes followed by
body bytes. -/
def messageBytes (timestamp : String) (rawBody : JSValue) :
    Except String (List Nat) := do
  let timestampData ← valueToUint8Array (.str timestamp) none
  let bodyData ← valueToUint8Array rawBody none
  pure (concatUint8Arrays timestampData bodyData)

/-- Body of the `try` block of `verifyKey`: build the message, resolve the
public key, hex-decode the signature, and invoke the Ed25519 verification
primitive. -/
def verifyKeyInner {K : Type} (p : CryptoProvider K) (rawBody : JSValue)
    (signature timestamp : String) (clientPublicKey : KeyInput K) :
    Except String Bool := do
  let message ← messageBytes timestamp rawBody
  let publicKey ← resolvePublicKey p clientPublicKey
  let sigBytes ← valueToUint8Array (.str signature) (some "hex")
  p.verify "ed25519" publicKey sigBytes message

/-- Model of the exported `verifyKey`: the `try`/`catch` converts every thrown
error into a `false` return value. -/
def verifyKey {K : Type} (p : CryptoProvider K) (rawBody : JSValue)
    (signature timestamp : String) (clientPublicKey : KeyInput K) : Bool :=
  match verifyKeyInner p rawBody signature timestamp clientPublicKey with
  | .ok b => b
  | .error _ => false

/-- Provider whose primitives always succeed and whose verification always
reports `false` (legitimately possible for Ed25519, e.g. a key no signature
matches). -/
def constProvider : CryptoProvider Unit where
  importKey := fun _ _ _ _ _ _ => .ok ()
  verify := fun _ _ _ _ => .ok false

/-- Provider whose key import always throws but whose verification behaves
exactly like `constProvider`. -/
def rejectingProvider : CryptoProvider Unit where
  importKey := fun _ _ _ _ _ _ => .error "import failed"
  verify := fun _ _ _ _ => .ok false

theorem except_bind_ok {ε α β : Type} (a : α) (f : α → Except ε β) :
    (Except.ok a >>= f) = f a := rfl

theorem except_bind_error {ε α β : Type} (e : ε) (f : α → Except ε β) :
    ((Except.error e : Except ε α) >>= f) = Except.error e := rfl

theorem drop_replicate_add (k n x : Nat) :
    (List.replicate (k + n) x).drop k = List.replicate n x := by
  induction k with
  | zero => simp
  | succ m ih =>
    have hmn : m + 1 + n = (m + n) + 1 := by omega
    rw [hmn, List.replicate_succ, List.drop_succ_cons, ih]

theorem writeAt_zero_replicate (a : List Nat) (n : Nat) :
    writeAt (List.replicate (a.length + n) 0) a 0 = a ++ List.replicate n 0 := by
  unfold writeAt
  simp only [List.take_zero, List.nil_append, Nat.zero_add]
  rw [drop_replicate_add]

theorem concat_eq_append (a b : List Nat) : concatUint8Arrays a b = a ++ b := by
  show writeAt (writeAt (List.replicate (a.length + b.length) 0) a 0) b a.length
      = a ++ b
  rw [writeAt_zero_replicate]
  unfold writeAt
  rw [List.take_left,
    show a.length + b.length = (a ++ List.replicate b.length 0).length by simp,
    List.drop_length]
  simp

theorem hexChunks_nil_iff (l : List Char) :
    hexChunks l = [] ↔ l.all isLineTerm = true := by
  induction l using hexChunks.induct <;> simp_all [hexChunks]

theorem hexChunks_length_of_clean (l : List Char)
    (h : ∀ c ∈ l, isLineTerm c = false) :
    (hexChunks l).length = (l.length + 1) / 2 := by
  induction l using hexChunks.induct
  all_goals simp_all [hexChunks]
  all_goals omega

/-- C1: for every combination of inputs (any body value, any signature,
timestamp and public-key string or handle, over any provider), `verifyKey`
never lets a failure escape: whenever any step of the `try` block throws, the
result is `false`, and the only way to return `true` is a genuine `true`
verdict from the completed pipeline. -/
theorem verifyKey_error_policy {K : Type} (p : CryptoProvider K)
    (rawBody : JSValue) (signature timestamp : String) (pk : KeyInput K) :
    (∀ e, verifyKeyInner p rawBody signature timestamp pk = .error e →
      verifyKey p rawBody signature timestamp pk = false) ∧
    (verifyKey p rawBody signature timestamp pk = true ↔
      verifyKeyInner p rawBody signature timestamp pk = .ok true) := by
  unfold verifyKey
  refine ⟨fun e he => by rw [he], ?_⟩
  cases h : verifyKeyInner p rawBody signature timestamp pk with
  | ok b => cases b <;> simp
  | error e => simp

theorem verifyKey_error_policy_witness :
    verifyKey constProvider JSValue.other "ab" "t" (KeyInput.cryptoKey ()) =
      false :=
  (verifyKey_error_policy constProvider JSValue.other "ab" "t"
    (KeyInput.cryptoKey ())).1 unrecognizedMsg (by rfl)

/-- C2: `concatUint8Arrays` returns a byte sequence of length
`len(A) + len(B)` equal to A immediately followed by B (no separator, padding
or length prefix), and `verifyKey` assembles the verified message as timestamp
bytes followed by body bytes, in that order. -/
theorem concat_and_message_order :
    (∀ a b : List Nat,
      (concatUint8Arrays a b).length = a.length + b.length ∧
      concatUint8Arrays a b = a ++ b) ∧
    (∀ (ts : String) (body : JSValue) (bs : List Nat),
      valueToUint8Array body none = .ok bs →
      messageBytes ts body = .ok (utf8Bytes ts ++ bs)) := by
  constructor
  · intro a b
    refine ⟨?_, concat_eq_append a b⟩
    rw [concat_eq_append]
    simp
  · intro ts body bs hb
    unfold messageBytes
    have hts : valueToUint8Array (.str ts) none = .ok (utf8Bytes ts) := by
      simp [valueToUint8Array]
    rw [hts, except_bind_ok, hb, except_bind_ok, concat_eq_append]
    rfl

theorem concat_and_message_order_witness :
    messageBytes "t" (JSValue.uint8Array [1, 2]) = .ok (utf8Bytes "t" ++ [1, 2]) :=
  concat_and_message_order.2 "t" (JSValue.uint8Array [1, 2]) [1, 2] rfl

/-- C3 counterexample: the odd-length string "abc" does not make the hex
normalizer raise; it parses to the two bytes [171, 12] (chunks "ab" and "c"),
in particular it is not the ParseError the claim requires. -/
theorem hex_odd_length_no_error :
    valueToUint8Array (JSValue.str "abc") (some "hex") = .ok [171, 12] ∧
    valueToUint8Array (JSValue.str "abc") (some "hex") ≠
      .error parseErrorMsg := by
  constructor
  · decide
  · decide

/-- C3 (amended): with format tag "hex" the byte normalizer raises the
ParseError exactly when the 1-to-2-character chunk match yields null — that is,
when every character of the string is a line terminator (in particular for the
empty string); any other string, odd-length or non-hex included, is parsed
without error into one byte per chunk. -/
theorem hex_error_iff_all_line_terminators (s : String) :
    (valueToUint8Array (.str s) (some "hex") = .error parseErrorMsg ↔
      s.data.all isLineTerm = true) ∧
    (s.data.all isLineTerm = false →
      valueToUint8Array (.str s) (some "hex") =
        .ok ((hexChunks s.data).map chunkByte)) := by
  have hnil := hexChunks_nil_iff s.data
  constructor
  · cases hc : hexChunks s.data with
    | nil =>
      simp only [valueToUint8Array, hexDecode, reduceIte, hc]
      simp [hnil.mp hc]
    | cons c cs =>
      simp only [valueToUint8Array, hexDecode, reduceIte, hc]
      constructor
      · intro h; cases h
      · intro h
        have hn : hexChunks s.data = [] := hnil.mpr h
        rw [hc] at hn; cases hn
  · intro h
    cases hc : hexChunks s.data with
    | nil =>
      have ha := hnil.mp hc
      rw [ha] at h; cases h
    | cons c cs =>
      simp only [valueToUint8Array, hexDecode, reduceIte, hc]

theorem hex_error_iff_all_line_terminators_witness :
    valueToUint8Array (.str "abc") (some "hex") =
      .ok ((hexChunks "abc".data).map chunkByte) :=
  (hex_error_iff_all_line_terminators "abc").2 (by decide)

/-- C4: a string public key is hex-decoded and imported as a raw Ed25519
verification-only (usages exactly ["verify"]), non-extractable key on each
call, while a pre-built key handle is used directly — in particular the result
of `verifyKey` with a handle does not depend on the provider's import
operation at all. -/
theorem key_resolution (K : Type) :
    (∀ (p : CryptoProvider K) (s : String),
      resolvePublicKey p (.str s) =
        (valueToUint8Array (.str s) (some "hex")).bind
          (fun raw => p.importKey "raw" raw "ed25519" "ed25519" false
            ["verify"])) ∧
    (∀ (p : CryptoProvider K) (k : K),
      resolvePublicKey p (.cryptoKey k) = .ok k) ∧
    (∀ (p q : CryptoProvider K), p.verify = q.verify →
      ∀ (body : JSValue) (sig ts : String) (k : K),
        verifyKey p body sig ts (.cryptoKey k) =
          verifyKey q body sig ts (.cryptoKey k)) := by
  refine ⟨fun p s => rfl, fun p k => rfl, fun p q hv body sig ts k => ?_⟩
  unfold verifyKey verifyKeyInner resolvePublicKey
  rw [hv]

theorem key_resolution_witness :
    verifyKey constProvider JSValue.jsNull "ab" "t" (KeyInput.cryptoKey ()) =
      verifyKey rejectingProvider JSValue.jsNull "ab" "t"
        (KeyInput.cryptoKey ()) :=
  (key_resolution Unit).2.2 constProvider rejectingProvider rfl
    JSValue.jsNull "ab" "t" ()

/-- C5: a null/absent raw body is normalized to the empty byte sequence (for
any format tag) rather than raising, so the message `verifyKey` verifies
against is exactly the timestamp bytes (the empty body contributes zero
bytes). -/
theorem null_body_empty_bytes :
    (∀ format, valueToUint8Array JSValue.jsNull format = .ok []) ∧
    (∀ ts : String, messageBytes ts JSValue.jsNull = .ok (utf8Bytes ts)) := by
  refine ⟨fun format => rfl, fun ts => ?_⟩
  unfold messageBytes
  have hts : valueToUint8Array (.str ts) none = .ok (utf8Bytes ts) := by
    simp [valueToUint8Array]
  rw [hts, except_bind_ok]
  show Except.ok (concatUint8Arrays (utf8Bytes ts) []) = _
  rw [concat_eq_append]
  simp

/-- C6: a string raw body and its UTF-8 byte-array encoding produce the same
boolean result from `verifyKey` for every provider, signature, timestamp and
public key. -/
theorem string_body_utf8_equiv (K : Type) (p : CryptoProvider K) (s : String)
    (signature timestamp : String) (pk : KeyInput K) :
    verifyKey p (.str s) signature timestamp pk =
      verifyKey p (.uint8Array (utf8Bytes s)) signature timestamp pk := by
  have hb : valueToUint8Array (.str s) none =
      valueToUint8Array (.uint8Array (utf8Bytes s)) none := by
    simp [valueToUint8Array]
  unfold verifyKey verifyKeyInner messageBytes
  rw [hb]

/-- C7 counterexample: `null` is neither a string nor a recognized
byte-sequence type, yet the byte normalizer returns the empty byte sequence
for it instead of failing with the unsupported-type error. -/
theorem null_not_unsupported :
    valueToUint8Array JSValue.jsNull none = .ok [] ∧
    valueToUint8Array JSValue.jsNull none ≠ .error unrecognizedMsg := by
  constructor
  · rfl
  · decide

/-- C7 (amended): every non-null input value that is neither a string nor one
of the recognized byte-sequence types fails with the unsupported-type error,
whose message names the accepted types (string, Buffer, ArrayBuffer,
Uint8Array). -/
theorem unsupported_type_message (format : Option String) :
    valueToUint8Array JSValue.other format =
      .error
        "Unrecognized value type, must be one of: string, Buffer, ArrayBuffer, Uint8Array" :=
  rfl

/-- C8: for every provider whose Ed25519 verification primitive only accepts
64-byte signatures (as WebCrypto's does), and for every body, timestamp and
public key, `verifyKey` with the odd-length signature string "abc" returns
`false` — and, being a total boolean function, raises nothing. -/
theorem odd_signature_false (K : Type) (p : CryptoProvider K) (body : JSValue)
    (ts : String) (pk : KeyInput K)
    (hp : ∀ (alg : String) (k : K) (sig msg : List Nat),
      sig.length ≠ 64 → p.verify alg k sig msg ≠ .ok true) :
    verifyKey p body "abc" ts pk = false := by
  unfold verifyKey verifyKeyInner
  cases hm : messageBytes ts body with
  | error e => rw [except_bind_error]
  | ok m =>
    rw [except_bind_ok]
    cases hk : resolvePublicKey p pk with
    | error e => rw [except_bind_error]
    | ok key =>
      rw [except_bind_ok]
      have hs : valueToUint8Array (.str "abc") (some "hex") = .ok [171, 12] :=
        by decide
      rw [hs, except_bind_ok]
      cases hv : p.verify "ed25519" key [171, 12] m with
      | error e => rfl
      | ok b =>
        cases b with
        | false => rfl
        | true => exact absurd hv (hp "ed25519" key [171, 12] m (by decide))

theorem odd_signature_false_witness :
    verifyKey constProvider JSValue.jsNull "abc" "t" (KeyInput.cryptoKey ()) =
      false :=
  odd_signature_false Unit constProvider JSValue.jsNull "t"
    (KeyInput.cryptoKey ())
    (fun alg k sig msg h => by simp [constProvider])

/-- C10 counterexample: the chunk "1z" is not valid hex yet contributes the
byte 1 (parseInt takes the hex prefix "1"), not 0; and the non-empty string
consisting of a single newline does raise the hex parse error, since the
regex dot matches no character of it. -/
theorem hex_chunk_prefix_and_newline :
    valueToUint8Array (JSValue.str "1z") (some "hex") = .ok [1] ∧
    valueToUint8Array (JSValue.str "1z") (some "hex") ≠ .ok [0] ∧
    valueToUint8Array (JSValue.str "\n") (some "hex") =
      .error parseErrorMsg := by
  refine ⟨by decide, by decide, by decide⟩

/-- C10 (amended): for every non-empty string with no line-terminator
characters, hex normalization does not raise and returns one byte per
1-to-2-character chunk — ceil(len/2) bytes in total — each byte being
`parseInt(chunk, 16)` coerced by `ToUint8` (so a chunk with no hexadecimal
prefix contributes 0 via NaN, and a chunk like "1z" contributes the value of
its hex prefix); strings consisting only of line terminators (in particular
the empty string) are the ones that raise. -/
theorem hex_nonempty_clean_result (s : String) (h1 : s.data ≠ [])
    (h2 : ∀ c ∈ s.data, isLineTerm c = false) :
    valueToUint8Array (.str s) (some "hex") =
      .ok ((hexChunks s.data).map chunkByte) ∧
    ((hexChunks s.data).map chunkByte).length = (s.data.length + 1) / 2 := by
  have hnil := hexChunks_nil_iff s.data
  have hclean : s.data.all isLineTerm = false := by
    cases hdata : s.data with
    | nil => exact absurd hdata h1
    | cons c cs =>
      have hc : isLineTerm c = false := h2 c (by rw [hdata]; exact .head cs)
      simp [List.all_cons, hc]
  constructor
  · cases hc : hexChunks s.data with
    | nil =>
      have ha := hnil.mp hc
      rw [ha] at hclean; cases hclean
    | cons c cs =>
      simp only [valueToUint8Array, hexDecode, reduceIte, hc]
  · rw [List.length_map]
    exact hexChunks_length_of_clean s.data h2

theorem hex_nonempty_clean_result_witness :
    valueToUint8Array (.str "abc") (some "hex") =
      .ok ((hexChunks "abc".data).map chunkByte) ∧
    ((hexChunks "abc".data).map chunkByte).length =
      ("abc".data.length + 1) / 2 :=
  hex_nonempty_clean_result "abc" (by decide) (by decide)

/-- Byte-level store for the mutation analysis: cell `k` holds the contents of
the `k`-th allocated array object; `next` is the next fresh cell. -/
structure Heap where
  cells : Nat → List Nat
  next : Nat

/-- Model of allocating a fresh array object (`new Uint8Array(...)`,
`TextEncoder.encode`, ...) holding the bytes `bs`. -/
def allocH (h : Heap) (bs : List Nat) : Heap × Nat :=
  ({ cells := fun k => if k = h.next then bs else h.cells k,
     next := h.next + 1 }, h.next)

/-- Reading the bytes of the array object in cell `i`. -/
def readH (h : Heap) (i : Nat) : List Nat := h.cells i

/-- Model of `dst.set(src, off)` where `dst` is the array object in cell `i`:
the only heap write the source performs. -/
def setH (h : Heap) (i : Nat) (src : List Nat) (off : Nat) : Heap :=
  { h with cells := fun k => if k = i then writeAt (h.cells i) src off
                             else h.cells k }

/-- Raw-body argument for the heap-level model: byte-sequence inputs are
references to existing array objects instead of carrying their bytes. -/
inductive JSValueRef where
  | jsNull
  | str (s : String)
  | buffer (i : Nat)
  | arrayBuffer (i : Nat)
  | uint8Array (i : Nat)
  | other

/-- Heap-level `valueToUint8Array`: identical branch structure to
`valueToUint8Array`, returning a reference. `null`, UTF-8 and hex strings
allocate fresh arrays; `new Uint8Array(buffer)` allocates a copy of the
`Buffer`'s bytes; an `ArrayBuffer` gets a zero-copy view (same cell) and a
`Uint8Array` is returned as-is (same cell). No branch writes to an existing
cell. -/
def valueToUint8ArrayH (h : Heap) (value : JSValueRef)
    (format : Option String) : Heap × Except String Nat :=
  match value with
  | .jsNull =>
    let r := allocH h []
    (r.1, .ok r.2)
  | .str s =>
    if format = some "hex" then
      match hexDecode s with
      | .error e => (h, .error e)
      | .ok bs =>
        let r := allocH h bs
        (r.1, .ok r.2)
    else
      let r := allocH h (utf8Bytes s)
      (r.1, .ok r.2)
  | .buffer i =>
    let r := allocH h (readH h i)
    (r.1, .ok r.2)
  | .arrayBuffer i => (h, .ok i)
  | .uint8Array i => (h, .ok i)
  | .other => (h, .error unrecognizedMsg)

/-- Heap-level `concatUint8Arrays`: allocate `merged` as a fresh zero array and
perform the two `set` writes into it — these are the only writes, and they
target the freshly allocated cell. -/
def concatUint8ArraysH (h : Heap) (i j : Nat) : Heap × Nat :=
  let a := readH h i
  let b := readH h j
  let r := allocH h (List.replicate (a.length + b.length) 0)
  let h2 := setH r.1 r.2 a 0
  let h3 := setH h2 r.2 b a.length
  (h3, r.2)

/-- Heap-level `verifyKey`: the same pipeline as `verifyKey`, with every
intermediate array explicit in the heap; the provider receives the bytes read
from the heap. -/
def verifyKeyH {K : Type} (p : CryptoProvider K) (h : Heap)
    (rawBody : JSValueRef) (signature timestamp : String)
    (clientPublicKey : KeyInput K) : Heap × Bool :=
  match valueToUint8ArrayH h (.str timestamp) none with
  | (h1, .error _) => (h1, false)
  | (h1, .ok ti) =>
    match valueToUint8ArrayH h1 rawBody none with
    | (h2, .error _) => (h2, false)
    | (h2, .ok bi) =>
      let rc := concatUint8ArraysH h2 ti bi
      let keyStep : Heap × Except String K :=
        match clientPublicKey with
        | .str s =>
          match valueToUint8ArrayH rc.1 (.str s) (some "hex") with
          | (h4, .error e) => (h4, .error e)
          | (h4, .ok ki) =>
            (h4, p.importKey "raw" (readH h4 ki) "ed25519" "ed25519" false
              ["verify"])
        | .cryptoKey k => (rc.1, .ok k)
      match keyStep with
      | (h4, .error _) => (h4, false)
      | (h4, .ok key) =>
        match valueToUint8ArrayH h4 (.str signature) (some "hex") with
        | (h5, .error _) => (h5, false)
        | (h5, .ok si) =>
          match p.verify "ed25519" key (readH h5 si) (readH h5 rc.2) with
          | .error _ => (h5, false)
          | .ok b => (h5, b)

/-- Heap evolution produced by the routine: only fresh cells are created or
written; every pre-existing cell keeps its bytes. -/
def HeapExt (h h2 : Heap) : Prop :=
  h.next ≤ h2.next ∧ ∀ k, k < h.next → h2.cells k = h.cells k

theorem heapExt_refl (h : Heap) : HeapExt h h := ⟨Nat.le_refl _, fun _ _ => rfl⟩

theorem heapExt_trans {h1 h2 h3 : Heap} (a : HeapExt h1 h2)
    (b : HeapExt h2 h3) : HeapExt h1 h3 :=
  ⟨Nat.le_trans a.1 b.1,
   fun k hk => (b.2 k (Nat.lt_of_lt_of_le hk a.1)).trans (a.2 k hk)⟩

theorem heapExt_alloc (h : Heap) (bs : List Nat) : HeapExt h (allocH h bs).1 := by
  refine ⟨Nat.le_succ _, fun k hk => ?_⟩
  simp only [allocH]
  rw [if_neg (Nat.ne_of_lt hk)]

theorem heapExt_setH_fresh {h0 : Heap} (h : Heap) (i : Nat) (src : List Nat)
    (off : Nat) (hup : HeapExt h0 h) (hi : h0.next ≤ i) :
    HeapExt h0 (setH h i src off) := by
  refine ⟨hup.1, fun k hk => ?_⟩
  simp only [setH]
  rw [if_neg (by omega)]
  exact hup.2 k hk

theorem heapExt_concat (h : Heap) (i j : Nat) :
    HeapExt h (concatUint8ArraysH h i j).1 := by
  unfold concatUint8ArraysH
  refine heapExt_setH_fresh _ _ _ _ (heapExt_setH_fresh _ _ _ _ ?_ ?_) ?_
  · exact heapExt_alloc h _
  · simp [allocH]
  · simp [allocH]

theorem heapExt_value (h : Heap) (v : JSValueRef) (format : Option String) :
    HeapExt h (valueToUint8ArrayH h v format).1 := by
  cases v with
  | jsNull => exact heapExt_alloc h []
  | str s =>
    by_cases hf : format = some "hex"
    · simp only [valueToUint8ArrayH, if_pos hf]
      cases hexDecode s with
      | error e => exact heapExt_refl h
      | ok bs => exact heapExt_alloc h bs
    · simp only [valueToUint8ArrayH, if_neg hf]
      exact heapExt_alloc h _
  | buffer i => exact heapExt_alloc h _
  | arrayBuffer i => exact heapExt_refl h
  | uint8Array i => exact heapExt_refl h
  | other => exact heapExt_refl h

/-- C9: the routine never mutates its inputs — for every starting heap, every
raw-body reference, all string inputs, every public key and every provider,
every array cell that existed before the call holds exactly the same bytes
after it; all transformations write only into freshly allocated arrays. -/
theorem verifyKey_no_mutation (K : Type) (p : CryptoProvider K) (h : Heap)
    (rawBody : JSValueRef) (signature timestamp : String) (pk : KeyInput K)
    (k : Nat) (hk : k < h.next) :
    (verifyKeyH p h rawBody signature timestamp pk).1.cells k = h.cells k := by
  suffices hext :
      HeapExt h (verifyKeyH p h rawBody signature timestamp pk).1 by
    exact hext.2 k hk
  unfold verifyKeyH
  cases hv1 : valueToUint8ArrayH h (.str timestamp) none with
  | mk h1 r1 =>
    have e1 : HeapExt h h1 := by
      have hx := heapExt_value h (.str timestamp) none
      rw [hv1] at hx; exact hx
    cases r1 with
    | error e => exact e1
    | ok ti =>
      dsimp only
      cases hv2 : valueToUint8ArrayH h1 rawBody none with
      | mk h2 r2 =>
        have e2 : HeapExt h h2 := by
          have hx := heapExt_value h1 rawBody none
          rw [hv2] at hx; exact heapExt_trans e1 hx
        cases r2 with
        | error e => exact e2
        | ok bi =>
          dsimp only
          cases hrc : concatUint8ArraysH h2 ti bi with
          | mk h3 mi =>
            have e3 : HeapExt h h3 := by
              have hx := heapExt_concat h2 ti bi
              rw [hrc] at hx; exact heapExt_trans e2 hx
            cases pk with
            | cryptoKey kk =>
              dsimp only
              cases hv5 : valueToUint8ArrayH h3 (.str signature)
                  (some "hex") with
              | mk h5 r5 =>
                have e5 : HeapExt h h5 := by
                  have hx := heapExt_value h3 (.str signature) (some "hex")
                  rw [hv5] at hx; exact heapExt_trans e3 hx
                cases r5 with
                | error e => exact e5
                | ok si =>
                  dsimp only
                  cases p.verify "ed25519" kk (readH h5 si) (readH h5 mi) with
                  | error e => exact e5
                  | ok b => exact e5
            | str s =>
              dsimp only
              cases hv4 : valueToUint8ArrayH h3 (.str s) (some "hex") with
              | mk h4 r4 =>
                have e4 : HeapExt h h4 := by
                  have hx := heapExt_value h3 (.str s) (some "hex")
                  rw [hv4] at hx; exact heapExt_trans e3 hx
                cases r4 with
                | error e => exact e4
                | ok ki =>
                  dsimp only
                  cases p.importKey "raw" (readH h4 ki) "ed25519" "ed25519"
                      false ["verify"] with
                  | error e => exact e4
                  | ok key =>
                    dsimp only
                    cases hv5 : valueToUint8ArrayH h4 (.str signature)
                        (some "hex") with
                    | mk h5 r5 =>
                      have e5 : HeapExt h h5 := by
                        have hx := heapExt_value h4 (.str signature)
                          (some "hex")
                        rw [hv5] at hx; exact heapExt_trans e4 hx
                      cases r5 with
                      | error e => exact e5
                      | ok si =>
                        dsimp only
                        cases p.verify "ed25519" key (readH h5 si)
                            (readH h5 mi) with
                        | error e => exact e5
                        | ok b => exact e5

/-- Concrete two-cell starting heap used to exercise the mutation theorem. -/
def demoHeap : Heap where
  cells := fun k => if k = 0 then [7, 8] else []
  next := 1

theorem verifyKey_no_mutation_witness :
    (verifyKeyH constProvider demoHeap (JSValueRef.uint8Array 0) "abc" "t"
        (KeyInput.cryptoKey ())).1.cells 0 = demoHeap.cells 0 :=
  verifyKey_no_mutation Unit constProvider demoHeap (JSValueRef.uint8Array 0)
    "abc" "t" (KeyInput.cryptoKey ()) 0 (by decide)
